import Mathlib

/-!
Shallow embedding of `src/Eq_SciPy_ARM.py`: an octave-spaced equalizer
filter bank compared between a SciPy floating-point SOS cascade and a
CMSIS-DSP Q31 fixed-point cascade.

Conventions of the embedding:
* Python floats are modelled by exact arithmetic: `ℚ` where the source
  computation is rational (centers, quantizer scaling, signal pre/post
  scaling), `ℝ` where it is transcendental (`log10` / `10**` edge formula).
* `np.round` is round-half-to-even, modelled by `roundHalfEven`.
* Source functions with no error path are embedded as total functions.
-/

namespace EqSciPyARM

/-- Configuration constant `BASE_FREQUENCY = 100` (source line 22). -/
def BASE_FREQUENCY : ℚ := 100

/-- Configuration constant `NUM_BANDS = 6` (source line 23). -/
def NUM_BANDS : ℕ := 6

/-- Configuration constant `FS = 16000` (source line 24). -/
def FS : ℚ := 16000

/-- Configuration constant `POSTSHIFT = 4` (source line 29). -/
def POSTSHIFT : ℕ := 4

/-- Configuration constant `NUMSTAGES = 3` (source line 30). -/
def NUMSTAGES : ℕ := 3

/-- Center frequencies of `SignalProcessor.calculate_centers` (source line 117):
`frequencies = [base_frequency * 2**i for i in range(-1, num_bands)]`,
i.e. `num_bands + 1` values `base_frequency * 2^(k-1)` for `k = 0 .. num_bands`. -/
def frequencies (base_frequency : ℚ) (num_bands : ℕ) : List ℚ :=
  (List.range (num_bands + 1)).map (fun (k : ℕ) => base_frequency * (2 : ℚ) ^ ((k : ℤ) - 1))

/-- Edge frequencies of `SignalProcessor.calculate_centers` (source lines 118-121):
`edges[i] = 10**(log10(frequencies[i]) + ((log10(frequencies[i+1]) - log10(frequencies[i])) / 2))`
for `i = 0 .. len(frequencies) - 2`. -/
noncomputable def edges (base_frequency : ℚ) (num_bands : ℕ) : List ℝ :=
  (List.range num_bands).map (fun i =>
    (10 : ℝ) ^ (Real.logb 10 (((frequencies base_frequency num_bands).getD i 0 : ℚ) : ℝ)
      + (Real.logb 10 (((frequencies base_frequency num_bands).getD (i + 1) 0 : ℚ) : ℝ)
        - Real.logb 10 (((frequencies base_frequency num_bands).getD i 0 : ℚ) : ℝ)) / 2))

/-- Return value of `SignalProcessor.calculate_centers` (source line 136):
the pair `(frequencies, edges)`. The source function performs no input
validation and has no error path. -/
noncomputable def calculate_centers (base_frequency : ℚ) (num_bands : ℕ) :
    List ℚ × List ℝ :=
  (frequencies base_frequency num_bands, edges base_frequency num_bands)

/-- Length of the centers list. -/
lemma frequencies_length (f : ℚ) (n : ℕ) : (frequencies f n).length = n + 1 := by
  rw [frequencies, List.length_map, List.length_range]

/-- Length of the edges list. -/
lemma edges_length (f : ℚ) (n : ℕ) : (edges f n).length = n := by
  simp [edges]

/-- Closed form of the k-th center. -/
lemma frequencies_getD (f : ℚ) (n k : ℕ) (hk : k < n + 1) :
    (frequencies f n).getD k 0 = f * (2 : ℚ) ^ ((k : ℤ) - 1) := by
  have hlen : k < (frequencies f n).length := by
    simpa [frequencies_length] using hk
  rw [List.getD_eq_getElem _ _ hlen]
  simp only [frequencies, List.getElem_map, List.getElem_range]

/-- Every center is positive when the base frequency is. -/
lemma frequencies_getD_pos (f : ℚ) (hf : 0 < f) (n k : ℕ) (hk : k < n + 1) :
    0 < (frequencies f n).getD k 0 := by
  rw [frequencies_getD f n k hk]
  exact mul_pos hf (zpow_pos (by norm_num) _)

/-- Consecutive centers have ratio exactly 2. -/
lemma frequencies_getD_succ (f : ℚ) (n k : ℕ) (hk : k + 1 < n + 1) :
    (frequencies f n).getD (k + 1) 0 = 2 * (frequencies f n).getD k 0 := by
  rw [frequencies_getD f n (k + 1) hk, frequencies_getD f n k (by omega)]
  have h2 : ((k + 1 : ℕ) : ℤ) - 1 = ((k : ℤ) - 1) + 1 := by push_cast; ring
  rw [h2, zpow_add_one₀ (by norm_num : (2 : ℚ) ≠ 0)]
  ring

/-- Centers are monotone in the index. -/
lemma frequencies_getD_mono (f : ℚ) (hf : 0 < f) (n : ℕ) {k m : ℕ} (hkm : k ≤ m)
    (hm : m < n + 1) :
    (frequencies f n).getD k 0 ≤ (frequencies f n).getD m 0 := by
  rw [frequencies_getD f n k (by omega), frequencies_getD f n m hm]
  have hexp : ((k : ℤ) - 1) ≤ ((m : ℤ) - 1) := by omega
  exact mul_le_mul_of_nonneg_left (zpow_le_zpow_right₀ (by norm_num) hexp) hf.le

/-- Closed form of the i-th edge. -/
lemma edges_getD (f : ℚ) (n i : ℕ) (hi : i < n) :
    (edges f n).getD i 0 =
      (10 : ℝ) ^ (Real.logb 10 (((frequencies f n).getD i 0 : ℚ) : ℝ)
        + (Real.logb 10 (((frequencies f n).getD (i + 1) 0 : ℚ) : ℝ)
          - Real.logb 10 (((frequencies f n).getD i 0 : ℚ) : ℝ)) / 2) := by
  have hlen : i < (edges f n).length := by simpa [edges_length] using hi
  rw [List.getD_eq_getElem _ _ hlen]
  simp only [edges, List.getElem_map, List.getElem_range]

/-- The log-midpoint formula of the source is exactly the geometric mean. -/
lemma edge_formula_eq_sqrt (a b : ℝ) (ha : 0 < a) (hb : 0 < b) :
    (10 : ℝ) ^ (Real.logb 10 a + (Real.logb 10 b - Real.logb 10 a) / 2)
      = Real.sqrt (a * b) := by
  have h1 : Real.logb 10 a + (Real.logb 10 b - Real.logb 10 a) / 2
      = Real.logb 10 (a * b) * (1 / 2 : ℝ) := by
    rw [Real.logb_mul (ne_of_gt ha) (ne_of_gt hb)]
    ring
  rw [h1, Real.rpow_mul (by norm_num : (0 : ℝ) ≤ 10),
    Real.rpow_logb (by norm_num) (by norm_num) (mul_pos ha hb), Real.sqrt_eq_rpow]

/-- Each edge equals the geometric mean of its two flanking centers. -/
lemma edges_getD_eq_sqrt (f : ℚ) (hf : 0 < f) (n i : ℕ) (hi : i < n) :
    (edges f n).getD i 0 =
      Real.sqrt ((((frequencies f n).getD i 0 : ℚ) : ℝ)
        * (((frequencies f n).getD (i + 1) 0 : ℚ) : ℝ)) := by
  rw [edges_getD f n i hi]
  exact edge_formula_eq_sqrt _ _
    (by exact_mod_cast frequencies_getD_pos f hf n i (by omega))
    (by exact_mod_cast frequencies_getD_pos f hf n (i + 1) (by omega))

/-- The geometric mean of two ordered positives lies strictly between them. -/
lemma sqrt_mul_between (a b : ℝ) (ha : 0 < a) (hab : a < b) :
    a < Real.sqrt (a * b) ∧ Real.sqrt (a * b) < b := by
  have hb : 0 < b := ha.trans hab
  constructor
  · rw [Real.lt_sqrt ha.le]
    nlinarith
  · rw [Real.sqrt_lt' hb]
    nlinarith

/-- Each edge lies strictly between its two flanking centers. -/
lemma edges_getD_between (f : ℚ) (hf : 0 < f) (n i : ℕ) (hi : i < n) :
    (((frequencies f n).getD i 0 : ℚ) : ℝ) < (edges f n).getD i 0 ∧
    (edges f n).getD i 0 < (((frequencies f n).getD (i + 1) 0 : ℚ) : ℝ) := by
  rw [edges_getD_eq_sqrt f hf n i hi]
  have ha : (0 : ℝ) < (((frequencies f n).getD i 0 : ℚ) : ℝ) := by
    exact_mod_cast frequencies_getD_pos f hf n i (by omega)
  have hab : (((frequencies f n).getD i 0 : ℚ) : ℝ)
      < (((frequencies f n).getD (i + 1) 0 : ℚ) : ℝ) := by
    have hsucc := frequencies_getD_succ f n i (by omega)
    have hpos := frequencies_getD_pos f hf n i (by omega)
    have : (frequencies f n).getD i 0 < (frequencies f n).getD (i + 1) 0 := by
      rw [hsucc]; linarith
    exact_mod_cast this
  exact sqrt_mul_between _ _ ha hab

/-- One row of the `zpk2sos` output: `[b0, b1, b2, a0, a1, a2]` with `a0 = 1`
implicit in the normalized form (columns 0-2 are the feedforward coefficients,
columns 4-5 the feedback coefficients used by the source). -/
structure SOSStage where
  b0 : ℚ
  b1 : ℚ
  b2 : ℚ
  a0 : ℚ
  a1 : ℚ
  a2 : ℚ

instance : Inhabited SOSStage := ⟨⟨0, 0, 0, 0, 0, 0⟩⟩

/-- Per-stage coefficient row built by `np.hstack((sos[:,:3], -sos[:,4:]))`
(source lines 150 and 247): `(b0, b1, b2, -a1, -a2)`. -/
def stageCoefs (s : SOSStage) : List ℚ :=
  [s.b0, s.b1, s.b2, -s.a1, -s.a2]

/-- Flattening of the per-stage rows by `np.reshape(..., NUMSTAGES * 5)`
(source line 247): row-major, stage after stage. -/
def cascadeCoefs (sos : List SOSStage) : List ℚ :=
  sos.flatMap stageCoefs

/-- Round half to even, the semantics of `np.round` used at source lines
153 and 252. -/
def roundHalfEven (q : ℚ) : ℤ :=
  if Int.fract q = 1 / 2 then (if ⌊q⌋ % 2 = 0 then ⌊q⌋ else ⌊q⌋ + 1) else round q

/-- Quantization of one coefficient (source lines 248-252):
`c / (POSTSHIFT ** 2)`, then `* (2**31)`, then `np.round`. -/
def quantizeValueQ31 (postShift : ℕ) (c : ℚ) : ℤ :=
  roundHalfEven (c / (postShift : ℚ) ^ 2 * 2 ^ 31)

/-- Quantization of a whole cascade (source lines 247-252): flatten the
stage rows, scale each down by `postShift ** 2`, scale up by `2**31`, round.
The source performs no range check and has no error path. -/
def quantizeCascadeQ31 (postShift : ℕ) (sos : List SOSStage) : List ℤ :=
  (cascadeCoefs sos).map (quantizeValueQ31 postShift)

/-- Reverse of the quantization scaling: multiply by the scale factor
`postShift ** 2`, divide by `2**31`. -/
def dequantizeValueQ31 (postShift : ℕ) (q : ℤ) : ℚ :=
  (q : ℚ) * (postShift : ℚ) ^ 2 / 2 ^ 31

/-- Input scaling of the fixed-point path (source lines 261-262):
`sigQ31 = self.input_signal * (2**31); sigQ31 = sigQ31 / 4`. -/
def toQ31 (x : ℚ) : ℚ :=
  x * 2 ^ 31 / 4

/-- Output rescaling of the fixed-point path (source lines 268-269):
`res2 *= 4; res2 = res2 / (2**31)`. -/
def fromQ31 (y : ℚ) : ℚ :=
  y * 4 / 2 ^ 31

/-- Modelled from the spec: the CMSIS-DSP engine `arm_biquad_cascade_df1_q31`
(external library, not part of this repository's source) re-applies a gain of
`2 ^ postShift` to each stage's accumulator result, where `postShift` is the
shift argument given to `arm_biquad_cascade_df1_init_q31` (source line 258
passes `POSTSHIFT`). -/
def armStageScale (postShift : ℕ) : ℚ :=
  2 ^ postShift

/-- Embedding of `SignalProcessor.load_input_signal` (source lines 87-92):
`self.input_signal, fs = librosa.load(input_filename, sr=None)` followed by
`fs = self.fs`. The loaded sample rate is bound and then immediately
overwritten by the configured rate; no comparison is made and no error path
exists. Returns the signal together with the sample rate used afterwards. -/
def load_input_signal (samples : List ℚ) (loadedFs : ℚ) (configuredFs : ℚ) :
    List ℚ × ℚ :=
  (samples, configuredFs)

/-- Band edge assignment of the filter-design loop (source lines 142-146):
for `i in range(0, NUM_BANDS)`, band `i` uses `lowcut = self.edges[i]` and
`highcut = self.edges[i + 1]`, where `self.edges` was set by the main program
call `calculate_centers(BASE_FREQUENCY, NUM_BANDS + 1)` (source line 318). -/
noncomputable def bandEdgePairs : List (ℝ × ℝ) :=
  (List.range NUM_BANDS).map (fun i =>
    ((edges BASE_FREQUENCY (NUM_BANDS + 1)).getD i 0,
     (edges BASE_FREQUENCY (NUM_BANDS + 1)).getD (i + 1) 0))

/-- Length of the flattened coefficient list: 5 per stage. -/
lemma cascadeCoefs_length (sos : List SOSStage) :
    (cascadeCoefs sos).length = 5 * sos.length := by
  induction sos with
  | nil => simp [cascadeCoefs]
  | cons s rest ih =>
    simp only [cascadeCoefs, List.flatMap_cons, List.length_append,
      List.length_cons, stageCoefs, List.length_nil] at *
    omega

/-- Cons unfolding of the flattened coefficient list. -/
lemma cascadeCoefs_cons (s : SOSStage) (rest : List SOSStage) :
    cascadeCoefs (s :: rest) = stageCoefs s ++ cascadeCoefs rest := by
  simp [cascadeCoefs, List.flatMap_cons]

/-- Position `5 * k + j` of the flattened list is coefficient `j` of stage `k`. -/
lemma cascadeCoefs_getD (sos : List SOSStage) (k j : ℕ) (hk : k < sos.length)
    (hj : j < 5) :
    (cascadeCoefs sos).getD (5 * k + j) 0
      = (stageCoefs (sos.getD k default)).getD j 0 := by
  induction sos generalizing k with
  | nil => simp at hk
  | cons s rest ih =>
    rw [cascadeCoefs_cons]
    cases k with
    | zero =>
      have hlen : j < (stageCoefs s).length := by simp [stageCoefs]; omega
      simp only [Nat.mul_zero, Nat.zero_add]
      rw [List.getD_append _ _ _ _ hlen]
      simp
    | succ k =>
      have h5 : 5 * (k + 1) + j = (stageCoefs s).length + (5 * k + j) := by
        simp [stageCoefs]; ring
      rw [h5, List.getD_append_right _ _ _ _ (by omega)]
      simp only [Nat.add_sub_cancel_left]
      have hk' : k < rest.length := by simpa using Nat.lt_of_succ_lt_succ (by simpa using hk)
      simpa using ih k hk'

/-- Round half to even never moves a value by more than one half. -/
lemma abs_roundHalfEven_sub (q : ℚ) : |(roundHalfEven q : ℚ) - q| ≤ 1 / 2 := by
  unfold roundHalfEven
  split
  · next h =>
    have hq : q - (⌊q⌋ : ℚ) = 1 / 2 := by
      rw [Int.fract] at h
      exact h
    split
    · rw [abs_le]; constructor <;> push_cast <;> linarith
    · rw [abs_le]; constructor <;> push_cast <;> linarith
  · next h =>
    rw [abs_sub_comm]
    exact abs_sub_round q

/-- Claim C3: for every baseFrequency `f > 0` and bandCount `n ≥ 1`,
`calculate_centers` produces `n + 1` centers `f * 2^(k-1)` in strictly
increasing geometric progression with ratio exactly 2, and `n` edges, each
equal to the geometric mean of its two flanking centers and therefore lying
strictly between them. -/
theorem C3_band_planner (f : ℚ) (n : ℕ) (hf : 0 < f) (hn : 1 ≤ n) :
    (frequencies f n).length = n + 1 ∧
    (edges f n).length = n ∧
    (∀ k, k < n + 1 → (frequencies f n).getD k 0 = f * (2 : ℚ) ^ ((k : ℤ) - 1)) ∧
    (∀ k, k + 1 < n + 1 →
      (frequencies f n).getD (k + 1) 0 = 2 * (frequencies f n).getD k 0 ∧
      (frequencies f n).getD k 0 < (frequencies f n).getD (k + 1) 0) ∧
    (∀ i, i < n →
      (edges f n).getD i 0
          = Real.sqrt ((((frequencies f n).getD i 0 : ℚ) : ℝ)
            * (((frequencies f n).getD (i + 1) 0 : ℚ) : ℝ)) ∧
      (((frequencies f n).getD i 0 : ℚ) : ℝ) < (edges f n).getD i 0 ∧
      (edges f n).getD i 0 < (((frequencies f n).getD (i + 1) 0 : ℚ) : ℝ)) := by
  refine ⟨frequencies_length f n, edges_length f n, ?_, ?_, ?_⟩
  · intro k hk
    exact frequencies_getD f n k hk
  · intro k hk
    refine ⟨frequencies_getD_succ f n k hk, ?_⟩
    have hpos := frequencies_getD_pos f hf n k (by omega)
    rw [frequencies_getD_succ f n k hk]
    linarith
  · intro i hi
    exact ⟨edges_getD_eq_sqrt f hf n i hi, (edges_getD_between f hf n i hi).1,
      (edges_getD_between f hf n i hi).2⟩

/-- Witness for C3 at the concrete input `f = 100`, `n = 6`: the hypotheses
hold there and the first edge lies strictly below the second center. -/
theorem C3_band_planner_witness :
    (0 : ℚ) < 100 ∧ (1 : ℕ) ≤ 6 ∧
    (edges 100 6).getD 0 0 < (((frequencies 100 6).getD 1 0 : ℚ) : ℝ) :=
  ⟨by norm_num, by norm_num,
    ((C3_band_planner 100 6 (by norm_num) (by norm_num)).2.2.2.2 0 (by norm_num)).2.2⟩

/-- Counterexample to claim C2 as stated: with the program's default
configuration the main program invokes the planner as
`calculate_centers(BASE_FREQUENCY, NUM_BANDS + 1)` (source line 318), so the
centers list is not `[50, 100, 200, 400, 800, 1600, 3200]` (it has 8
elements, including 6400). -/
theorem C2_centers_counterexample :
    frequencies BASE_FREQUENCY (NUM_BANDS + 1) ≠ [50, 100, 200, 400, 800, 1600, 3200] := by
  intro h
  have hlen := congrArg List.length h
  rw [frequencies_length] at hlen
  simp [NUM_BANDS] at hlen

/-- Claim C2 amended: with the default configuration the planner is invoked
with `num_bands = NUM_BANDS + 1 = 7` and yields exactly the centers
`50, 100, 200, 400, 800, 1600, 3200, 6400`; every computed edge lies strictly
between its two consecutive centers and no edge reaches `FS / 2 = 8000`
(Nyquist). -/
theorem C2_centers_default :
    frequencies BASE_FREQUENCY (NUM_BANDS + 1)
        = [50, 100, 200, 400, 800, 1600, 3200, 6400] ∧
    (∀ i, i < NUM_BANDS + 1 →
      (((frequencies BASE_FREQUENCY (NUM_BANDS + 1)).getD i 0 : ℚ) : ℝ)
          < (edges BASE_FREQUENCY (NUM_BANDS + 1)).getD i 0 ∧
      (edges BASE_FREQUENCY (NUM_BANDS + 1)).getD i 0
          < (((frequencies BASE_FREQUENCY (NUM_BANDS + 1)).getD (i + 1) 0 : ℚ) : ℝ) ∧
      (edges BASE_FREQUENCY (NUM_BANDS + 1)).getD i 0 < ((FS : ℚ) : ℝ) / 2) := by
  constructor
  · apply List.ext_getElem
    · rw [frequencies_length]
      simp [NUM_BANDS]
    · intro i h1 h2
      have hg : (frequencies BASE_FREQUENCY (NUM_BANDS + 1))[i]
          = BASE_FREQUENCY * (2 : ℚ) ^ ((i : ℤ) - 1) := by
        rw [← List.getD_eq_getElem _ 0 h1,
          frequencies_getD _ _ _ (by simpa [frequencies_length] using h1)]
      rw [hg]
      have h8 : i < 8 := by simpa using h2
      interval_cases i <;> norm_num [BASE_FREQUENCY]
  · intro i hi
    have hf : (0 : ℚ) < BASE_FREQUENCY := by norm_num [BASE_FREQUENCY]
    have hb := edges_getD_between BASE_FREQUENCY hf (NUM_BANDS + 1) i hi
    refine ⟨hb.1, hb.2, ?_⟩
    have htop : (frequencies BASE_FREQUENCY (NUM_BANDS + 1)).getD (NUM_BANDS + 1) 0
        = 6400 := by
      rw [frequencies_getD _ _ _ (by omega)]
      norm_num [BASE_FREQUENCY, NUM_BANDS]
    have hmono := frequencies_getD_mono BASE_FREQUENCY hf (NUM_BANDS + 1)
      (show i + 1 ≤ NUM_BANDS + 1 by omega) (by omega)
    rw [htop] at hmono
    have hcast : (((frequencies BASE_FREQUENCY (NUM_BANDS + 1)).getD (i + 1) 0 : ℚ) : ℝ)
        ≤ (6400 : ℝ) := by exact_mod_cast hmono
    have hFS : ((FS : ℚ) : ℝ) / 2 = 8000 := by norm_num [FS]
    rw [hFS]
    linarith [hb.2]

/-- Witness for C2's amended statement at the concrete index `i = 6`: the
hypothesis holds there and the last (largest) edge stays below Nyquist. -/
theorem C2_centers_default_witness :
    6 < NUM_BANDS + 1 ∧
    (edges BASE_FREQUENCY (NUM_BANDS + 1)).getD 6 0 < ((FS : ℚ) : ℝ) / 2 :=
  ⟨by norm_num [NUM_BANDS],
    (C2_centers_default.2 6 (by norm_num [NUM_BANDS])).2.2⟩

/-- Counterexample to claim C7 as stated: on `baseFrequency = -100 ≤ 0` the
planner does not signal any `ConfigurationError` (the source function has no
validation and no error path at all); it returns the complete centers and
edges lists and filter design proceeds. -/
theorem C7_no_validation_counterexample :
    (-100 : ℚ) ≤ 0 ∧
    (calculate_centers (-100) 6).1.length = 6 + 1 ∧
    (calculate_centers (-100) 6).2.length = 6 := by
  refine ⟨by norm_num, ?_, ?_⟩
  · simpa [calculate_centers] using frequencies_length (-100) 6
  · simpa [calculate_centers] using edges_length (-100) 6

/-- Claim C7 amended: the planner performs no validation: for every
`baseFrequency` (including values `≤ 0`) and every `num_bands` it totally
returns `num_bands + 1` centers and `num_bands` edges; no `ConfigurationError`
is signaled for a nonpositive base frequency or for edges at or above
Nyquist, and filter design proceeds on whatever was computed. -/
theorem C7_planner_total (f : ℚ) (n : ℕ) :
    (calculate_centers f n).1.length = n + 1 ∧
    (calculate_centers f n).2.length = n := by
  exact ⟨frequencies_length f n, edges_length f n⟩

/-- Counterexample to claim C9 as stated: with a loaded sample rate of 44100
differing from the configured `FS = 16000`, `load_input_signal` proceeds
normally, silently substituting the configured rate; no `ConfigurationError`
is signaled (the source binds the loaded rate and immediately overwrites it:
`fs = self.fs`). -/
theorem C9_sample_rate_counterexample :
    (44100 : ℚ) ≠ FS ∧ load_input_signal [1] 44100 FS = ([1], FS) := by
  constructor
  · norm_num [FS]
  · rfl

/-- Claim C9 amended: the loader never checks the source's sample rate: its
result is independent of the loaded rate, the returned signal is the loaded
one, and the rate used afterwards is unconditionally the configured one. -/
theorem C9_loader_ignores_rate (samples : List ℚ) (fs1 fs2 sys : ℚ) :
    load_input_signal samples fs1 sys = load_input_signal samples fs2 sys ∧
    (load_input_signal samples fs1 sys).1 = samples ∧
    (load_input_signal samples fs1 sys).2 = sys :=
  ⟨rfl, rfl, rfl⟩

/-- Entry of the quantized cascade: the quantizer applied to the
corresponding flattened coefficient. -/
lemma quantizeCascadeQ31_getD (ps : ℕ) (sos : List SOSStage) (i : ℕ)
    (hi : i < 5 * sos.length) :
    (quantizeCascadeQ31 ps sos).getD i 0
      = quantizeValueQ31 ps ((cascadeCoefs sos).getD i 0) := by
  have hlen : i < (quantizeCascadeQ31 ps sos).length := by
    simpa [quantizeCascadeQ31, cascadeCoefs_length] using hi
  have hlen2 : i < (cascadeCoefs sos).length := by
    simpa [cascadeCoefs_length] using hi
  rw [List.getD_eq_getElem _ _ hlen, List.getD_eq_getElem _ _ hlen2]
  simp [quantizeCascadeQ31]

/-- Round half to even is the identity on integers. -/
lemma roundHalfEven_intCast (n : ℤ) : roundHalfEven (n : ℚ) = n := by
  unfold roundHalfEven
  rw [Int.fract_intCast]
  norm_num

/-- Evaluation helper: a coefficient whose scaled value is an integer
quantizes to exactly that integer. -/
lemma quantizeValueQ31_eq {ps : ℕ} {c : ℚ} {n : ℤ}
    (h : c / (ps : ℚ) ^ 2 * 2 ^ 31 = (n : ℚ)) :
    quantizeValueQ31 ps c = n := by
  rw [quantizeValueQ31, h]
  exact roundHalfEven_intCast n

/-- Flattened coefficients of a one-stage cascade. -/
lemma cascadeCoefs_singleton (s : SOSStage) : cascadeCoefs [s] = stageCoefs s := by
  rw [cascadeCoefs_cons]
  simp [cascadeCoefs]

/-- Concrete single-stage cascade used as evaluation input. -/
def sampleStage : SOSStage :=
  ⟨1 / 2, -1, 1 / 4, 1, -(3 / 2), 7 / 8⟩

/-- Concrete quantization of `sampleStage` with the default scale. -/
lemma quantize_sample :
    quantizeCascadeQ31 POSTSHIFT [sampleStage]
      = [67108864, -134217728, 33554432, 201326592, -117440512] := by
  rw [quantizeCascadeQ31, cascadeCoefs_singleton, stageCoefs]
  simp only [sampleStage]
  rw [List.map_cons, List.map_cons, List.map_cons, List.map_cons, List.map_cons,
    List.map_nil]
  rw [quantizeValueQ31_eq (n := 67108864) (by norm_num [POSTSHIFT]),
    quantizeValueQ31_eq (n := -134217728) (by norm_num [POSTSHIFT]),
    quantizeValueQ31_eq (n := 33554432) (by norm_num [POSTSHIFT]),
    quantizeValueQ31_eq (n := 201326592) (by norm_num [POSTSHIFT]),
    quantizeValueQ31_eq (n := -117440512) (by norm_num [POSTSHIFT])]

/-- Claim C4: for every SOS cascade the quantizer forms, per stage, the five
coefficients `(b0, b1, b2, -a1, -a2)`, divides each by the chosen scale
factor (the default is `POSTSHIFT ^ 2 = 4 ^ 2 = 16`), multiplies by `2 ^ 31`
and rounds to the nearest integer (half to even, the rule of `np.round`). -/
theorem C4_quantizer_per_stage (postShift : ℕ) (sos : List SOSStage) (k j : ℕ)
    (hk : k < sos.length) (hj : j < 5) :
    ((POSTSHIFT : ℚ) ^ 2 = 16) ∧
    stageCoefs (sos.getD k default)
      = [(sos.getD k default).b0, (sos.getD k default).b1, (sos.getD k default).b2,
          -(sos.getD k default).a1, -(sos.getD k default).a2] ∧
    (quantizeCascadeQ31 postShift sos).getD (5 * k + j) 0
      = roundHalfEven ((stageCoefs (sos.getD k default)).getD j 0
          / (postShift : ℚ) ^ 2 * 2 ^ 31) ∧
    (∀ q : ℚ, |(roundHalfEven q : ℚ) - q| ≤ 1 / 2) := by
  refine ⟨by norm_num [POSTSHIFT], rfl, ?_, abs_roundHalfEven_sub⟩
  have hik : 5 * k + j < 5 * sos.length := by omega
  rw [quantizeCascadeQ31_getD _ _ _ hik, cascadeCoefs_getD sos k j hk hj,
    quantizeValueQ31]

/-- Witness for C4 at the concrete cascade `[sampleStage]`, stage 0,
coefficient 0, with the default scale. -/
theorem C4_quantizer_witness :
    0 < ([sampleStage] : List SOSStage).length ∧ (0 : ℕ) < 5 ∧
    (quantizeCascadeQ31 POSTSHIFT [sampleStage]).getD (5 * 0 + 0) 0
      = roundHalfEven ((stageCoefs (([sampleStage] : List SOSStage).getD 0 default)).getD 0 0
          / (POSTSHIFT : ℚ) ^ 2 * 2 ^ 31) :=
  ⟨by norm_num, by norm_num,
    (C4_quantizer_per_stage POSTSHIFT [sampleStage] 0 0 (by norm_num) (by norm_num)).2.2.1⟩

/-- Claim C5: in the fixed-point path the input is multiplied by `2 ^ 31`
and divided by 4 (equivalently: divided by 4 of headroom, then scaled to the
Q31 domain), the output is multiplied by 4 and divided by `2 ^ 31`, the two
are exact inverses, and the scale factor divided out of the coefficients at
quantization time (`POSTSHIFT ^ 2 = 16`) is the exact inverse of the gain
`2 ^ POSTSHIFT = 16` the CMSIS engine re-applies to its accumulator after
each stage. -/
theorem C5_fixed_point_scaling :
    (∀ x : ℚ, toQ31 x = x / 4 * 2 ^ 31) ∧
    (∀ y : ℚ, fromQ31 y = y * 4 / 2 ^ 31) ∧
    (∀ x : ℚ, fromQ31 (toQ31 x) = x) ∧
    armStageScale POSTSHIFT = (POSTSHIFT : ℚ) ^ 2 ∧
    (∀ c : ℚ, c / (POSTSHIFT : ℚ) ^ 2 * armStageScale POSTSHIFT = c) := by
  refine ⟨?_, fun y => rfl, ?_, ?_, ?_⟩
  · intro x
    rw [toQ31]
    ring
  · intro x
    rw [toQ31, fromQ31]
    ring
  · norm_num [armStageScale, POSTSHIFT]
  · intro c
    norm_num [armStageScale, POSTSHIFT]

/-- Claim C6: when every quantized coefficient is strictly within the Q31
range, reconstructing a float coefficient from its quantized integer by
reversing the scale (multiply by the scale factor, divide by `2 ^ 31`)
differs from the original by at most one unit in the last place of Q31
resolution, i.e. `scale / 2 ^ 31`. -/
theorem C6_quantize_roundtrip (postShift : ℕ) (sos : List SOSStage) (i : ℕ)
    (hps : 0 < postShift)
    (hrange : ∀ q ∈ quantizeCascadeQ31 postShift sos, |q| < 2 ^ 31)
    (hi : i < 5 * sos.length) :
    |dequantizeValueQ31 postShift ((quantizeCascadeQ31 postShift sos).getD i 0)
        - (cascadeCoefs sos).getD i 0|
      ≤ (postShift : ℚ) ^ 2 / 2 ^ 31 := by
  rw [quantizeCascadeQ31_getD _ _ _ hi]
  set c := (cascadeCoefs sos).getD i 0 with hc
  have hpsQ : (0 : ℚ) < (postShift : ℚ) := by exact_mod_cast hps
  have hSpos : (0 : ℚ) < (postShift : ℚ) ^ 2 := by positivity
  set x := c / (postShift : ℚ) ^ 2 * 2 ^ 31 with hx
  have hround := abs_roundHalfEven_sub x
  have hcx : c = x * (postShift : ℚ) ^ 2 / 2 ^ 31 := by
    rw [hx]
    field_simp
  rw [quantizeValueQ31, ← hx, dequantizeValueQ31]
  have hfact : (roundHalfEven x : ℚ) * (postShift : ℚ) ^ 2 / 2 ^ 31 - c
      = ((roundHalfEven x : ℚ) - x) * ((postShift : ℚ) ^ 2 / 2 ^ 31) := by
    rw [hcx]
    ring
  rw [hfact, abs_mul, abs_of_pos (by positivity : (0 : ℚ) < (postShift : ℚ) ^ 2 / 2 ^ 31)]
  have h1 : |(roundHalfEven x : ℚ) - x| * ((postShift : ℚ) ^ 2 / 2 ^ 31)
      ≤ (1 / 2) * ((postShift : ℚ) ^ 2 / 2 ^ 31) :=
    mul_le_mul_of_nonneg_right hround (by positivity)
  have h2 : (1 / 2 : ℚ) * ((postShift : ℚ) ^ 2 / 2 ^ 31)
      ≤ (postShift : ℚ) ^ 2 / 2 ^ 31 := by
    have : (0 : ℚ) ≤ (postShift : ℚ) ^ 2 / 2 ^ 31 := by positivity
    linarith
  linarith

/-- Witness for C6 at the concrete cascade `[sampleStage]` with the default
scale: the range hypothesis holds (all five quantized values are within Q31)
and the round-trip bound holds at coefficient 0. -/
theorem C6_quantize_roundtrip_witness :
    0 < POSTSHIFT ∧
    (quantizeCascadeQ31 POSTSHIFT [sampleStage]).getD 0 0 = 67108864 ∧
    |dequantizeValueQ31 POSTSHIFT ((quantizeCascadeQ31 POSTSHIFT [sampleStage]).getD 0 0)
        - (cascadeCoefs [sampleStage]).getD 0 0|
      ≤ (POSTSHIFT : ℚ) ^ 2 / 2 ^ 31 :=
  ⟨by norm_num [POSTSHIFT],
    by rw [quantize_sample]; rfl,
    C6_quantize_roundtrip POSTSHIFT [sampleStage] 0 (by norm_num [POSTSHIFT])
      (by
        rw [quantize_sample]
        intro q hq
        simp only [List.mem_cons, List.not_mem_nil, or_false] at hq
        rcases hq with h | h | h | h | h <;> subst h <;> decide)
      (by norm_num)⟩

/-- Concrete high-gain stage whose leading coefficient exceeds the Q31 range
when quantized with no scale-down. -/
def overflowStage : SOSStage :=
  ⟨3 / 2, 0, 0, 1, 0, 0⟩

/-- Counterexample to claim C8 as stated: quantizing `overflowStage` with
scale factor `1 ^ 2 = 1` (no scale-down) produces the out-of-range value
`3221225472 ≥ 2 ^ 31`, yet no `QuantizationOverflow` is signaled: the
quantizer (which has no check and no error path in the source) returns the
complete coefficient list with the value passed through unchanged. -/
theorem C8_overflow_counterexample :
    (quantizeCascadeQ31 1 [overflowStage]).getD 0 0 = 3221225472 ∧
    (2 : ℤ) ^ 31 ≤ (quantizeCascadeQ31 1 [overflowStage]).getD 0 0 ∧
    (quantizeCascadeQ31 1 [overflowStage]).length = 5 := by
  have hq : quantizeCascadeQ31 1 [overflowStage] = [3221225472, 0, 0, 0, 0] := by
    rw [quantizeCascadeQ31, cascadeCoefs_singleton, stageCoefs]
    simp only [overflowStage]
    rw [List.map_cons, List.map_cons, List.map_cons, List.map_cons, List.map_cons,
      List.map_nil]
    rw [quantizeValueQ31_eq (n := 3221225472) (by norm_num),
      quantizeValueQ31_eq (n := 0) (by norm_num),
      quantizeValueQ31_eq (n := 0) (by norm_num)]
  rw [hq]
  refine ⟨rfl, by norm_num, rfl⟩

/-- Claim C8 amended: quantization performs no overflow check and signals
nothing: for every scale and cascade it totally returns the rounded scaled
coefficient at every position (out-of-range magnitudes included, neither
saturated nor wrapped); with no scale-down on a high-gain cascade an
out-of-range value is produced silently. -/
theorem C8_quantizer_silent (postShift : ℕ) (sos : List SOSStage) (i : ℕ) :
    (quantizeCascadeQ31 postShift sos).length = 5 * sos.length ∧
    (quantizeCascadeQ31 postShift sos).getD i 0
      = quantizeValueQ31 postShift ((cascadeCoefs sos).getD i 0) := by
  constructor
  · simp [quantizeCascadeQ31, cascadeCoefs_length]
  · by_cases hi : i < 5 * sos.length
    · exact quantizeCascadeQ31_getD postShift sos i hi
    · have h1 : (quantizeCascadeQ31 postShift sos).length ≤ i := by
        simpa [quantizeCascadeQ31, cascadeCoefs_length] using Nat.le_of_not_lt hi
      have h2 : (cascadeCoefs sos).length ≤ i := by
        simpa [cascadeCoefs_length] using Nat.le_of_not_lt hi
      rw [List.getD_eq_default _ _ h1, List.getD_eq_default _ _ h2]
      rw [quantizeValueQ31_eq (n := 0) (by norm_num)]

/-- Helper: entry of the band edge-pair list. -/
lemma bandEdgePairs_getD (i : ℕ) (hi : i < NUM_BANDS) :
    bandEdgePairs.getD i (0, 0)
      = ((edges BASE_FREQUENCY (NUM_BANDS + 1)).getD i 0,
         (edges BASE_FREQUENCY (NUM_BANDS + 1)).getD (i + 1) 0) := by
  have hlen : i < bandEdgePairs.length := by
    simpa [bandEdgePairs] using hi
  rw [List.getD_eq_getElem _ _ hlen]
  simp only [bandEdgePairs, List.getElem_map, List.getElem_range]

/-- Claim C10: with the default configuration exactly `NUM_BANDS = 6`
bandpass cascades are designed and filtered, band `i` spanning `edges[i]` to
`edges[i + 1]`; because the main program passes `NUM_BANDS + 1` to
`calculate_centers`, 8 centers and 7 edges are computed, the lowest center
(50) lies below the first band's low edge, and the highest computed center
(6400) lies above the top band's high edge, so it is never assigned a
filter. -/
theorem C10_band_structure :
    NUM_BANDS = 6 ∧
    (frequencies BASE_FREQUENCY (NUM_BANDS + 1)).length = 8 ∧
    (edges BASE_FREQUENCY (NUM_BANDS + 1)).length = 7 ∧
    bandEdgePairs.length = NUM_BANDS ∧
    bandEdgePairs.getD 0 (0, 0)
      = ((edges BASE_FREQUENCY (NUM_BANDS + 1)).getD 0 0,
         (edges BASE_FREQUENCY (NUM_BANDS + 1)).getD 1 0) ∧
    bandEdgePairs.getD 5 (0, 0)
      = ((edges BASE_FREQUENCY (NUM_BANDS + 1)).getD 5 0,
         (edges BASE_FREQUENCY (NUM_BANDS + 1)).getD 6 0) ∧
    (frequencies BASE_FREQUENCY (NUM_BANDS + 1)).getD 7 0 = 6400 ∧
    (bandEdgePairs.getD 5 (0, 0)).2 < ((6400 : ℚ) : ℝ) ∧
    (((frequencies BASE_FREQUENCY (NUM_BANDS + 1)).getD 0 0 : ℚ) : ℝ)
      < (bandEdgePairs.getD 0 (0, 0)).1 := by
  have hf : (0 : ℚ) < BASE_FREQUENCY := by norm_num [BASE_FREQUENCY]
  have h7 : (frequencies BASE_FREQUENCY (NUM_BANDS + 1)).getD 7 0 = 6400 := by
    rw [frequencies_getD _ _ _ (by norm_num [NUM_BANDS])]
    norm_num [BASE_FREQUENCY]
  refine ⟨rfl, by simp [frequencies_length, NUM_BANDS], by simp [edges_length, NUM_BANDS],
    by simp [bandEdgePairs], bandEdgePairs_getD 0 (by norm_num [NUM_BANDS]),
    bandEdgePairs_getD 5 (by norm_num [NUM_BANDS]), h7, ?_, ?_⟩
  · rw [bandEdgePairs_getD 5 (by norm_num [NUM_BANDS])]
    have hb := (edges_getD_between BASE_FREQUENCY hf (NUM_BANDS + 1) 6
      (by norm_num [NUM_BANDS])).2
    have h67 : (6 : ℕ) + 1 = 7 := rfl
    rw [h67, h7] at hb
    simpa using hb
  · rw [bandEdgePairs_getD 0 (by norm_num [NUM_BANDS])]
    exact (edges_getD_between BASE_FREQUENCY hf (NUM_BANDS + 1) 0
      (by norm_num [NUM_BANDS])).1

end EqSciPyARM
